import Mathlib

/-!
Verification development for the OD-LABS-Payload fix scripts.

The repository is a collection of Python scripts that rewrite TypeScript
test files with `re.sub` / `str.replace` patterns.  Every pattern used by
the claims below is hand-compiled here into an executable matcher over
`List Char`.  In each of those patterns every greedy element (a run of
whitespace, a negated character class, a repeated word character) is
followed by a character outside its class, so maximal-munch consumption
coincides with the backtracking semantics of the Python `re` module; the
one lazy element is compiled as an explicit shortest-first search.
String literals with brace or quote characters are written with \x7b,
\x7d and \x27 escapes.
-/

set_option maxRecDepth 8000

abbrev Doc := List Char

/-- Whitespace class of the Python regex escape for whitespace (ASCII part). -/
def isWs (c : Char) : Bool :=
  c = ' ' || c = '\t' || c = '\n' || c = '\r' || c = '\x0b' || c = '\x0c'

/-- Word-character class of the Python regex escape for word characters (ASCII part). -/
def isWordChar (c : Char) : Bool :=
  ('a' ≤ c && c ≤ 'z') || ('A' ≤ c && c ≤ 'Z') || ('0' ≤ c && c ≤ '9') || c = '_'

/-- Consume an exact literal, returning the remainder. -/
def litL : Doc → Doc → Option Doc
  | [], s => some s
  | _ :: _, [] => none
  | p :: ps, c :: cs => if c = p then litL ps cs else none

/-- Consume a literal given as a string. -/
def lit (p : String) (s : Doc) : Option Doc := litL p.toList s

/-- Maximal run of whitespace (greedy star of the whitespace class). -/
def splitWs (s : Doc) : Doc × Doc := (s.takeWhile isWs, s.dropWhile isWs)

/-- Maximal nonempty run of whitespace (greedy plus of the whitespace class). -/
def splitWs1 (s : Doc) : Option (Doc × Doc) :=
  match s.takeWhile isWs, s.dropWhile isWs with
  | [], _ => none
  | c :: cs, r => some (c :: cs, r)

/-- Maximal nonempty run of characters different from `bad`
(greedy plus of a negated character class). -/
def splitNot1 (bad : Char) (s : Doc) : Option (Doc × Doc) :=
  match s.takeWhile (fun c => !(c = bad)), s.dropWhile (fun c => !(c = bad)) with
  | [], _ => none
  | c :: cs, r => some (c :: cs, r)

/-- Maximal nonempty run of word characters (greedy plus of the word class). -/
def splitWord1 (s : Doc) : Option (Doc × Doc) :=
  match s.takeWhile isWordChar, s.dropWhile isWordChar with
  | [], _ => none
  | c :: cs, r => some (c :: cs, r)

/-- Does `p` occur at the start of `s`? -/
def isPre : Doc → Doc → Bool
  | [], _ => true
  | _ :: _, [] => false
  | p :: ps, c :: cs => c = p && isPre ps cs

/-- Python substring membership test (the `in` operator on strings). -/
def containsStr : Doc → Doc → Bool
  | [], p => p.isEmpty
  | c :: cs, p => isPre p (c :: cs) || containsStr cs p

/-- Number of (possibly overlapping) start positions at which `p` occurs in `s`. -/
def countStr : Doc → Doc → Nat
  | [], _ => 0
  | c :: cs, p => (if isPre p (c :: cs) then 1 else 0) + countStr cs p

/-!
Generic model of one `re.sub` pass: scan the input left to right, trying the
hand-compiled matcher at every position; on a match, emit its replacement and
resume scanning after the matched span, exactly as `re.sub` does.  The
matcher returns the replacement text and the unconsumed remainder.  Fuel is
set to the input length; every matcher below consumes at least one character
on success, so the fuel never runs out.
-/
def reSubAux (m : Doc → Option (Doc × Doc)) : Nat → Doc → Doc
  | 0, s => s
  | _ + 1, [] => []
  | fuel + 1, c :: s =>
    match m (c :: s) with
    | some (r, rest) => r ++ reSubAux m fuel rest
    | none => c :: reSubAux m fuel s

def reSub (m : Doc → Option (Doc × Doc)) (s : Doc) : Doc := reSubAux m s.length s

/-- A matcher consumes part of the input whenever it fires. -/
def Consumes (m : Doc → Option (Doc × Doc)) : Prop :=
  ∀ s r rest, m s = some (r, rest) → rest.length < s.length

/-!
Combinators for the hand-compiled matchers.  A piece matcher takes the text
and returns the consumed span together with the unconsumed remainder.
-/
abbrev Piece := Doc → Option (Doc × Doc)

/-- A literal run of pattern characters. -/
def pLit (p : String) : Piece := fun s =>
  match litL p.toList s with
  | none => none
  | some r => some (p.toList, r)

/-- Greedy star of the whitespace class (never fails). -/
def pWs : Piece := fun s => some (splitWs s)

/-- Greedy plus of the whitespace class. -/
def pWs1 : Piece := splitWs1

/-- Greedy plus of a negated character class. -/
def pNot1 (bad : Char) : Piece := splitNot1 bad

/-- Greedy plus of the word-character class. -/
def pWord1 : Piece := splitWord1

/-- Sequential composition of two piece matchers. -/
def pSeq (a b : Piece) : Piece := fun s =>
  match a s with
  | none => none
  | some (x, r) =>
    match b r with
    | none => none
    | some (y, r') => some (x ++ y, r')

/-- A piece matcher only ever splits its input. -/
def PSound (p : Piece) : Prop := ∀ s x r, p s = some (x, r) → s = x ++ r

/-- A piece matcher that consumes at least one character whenever it fires. -/
def PStrict (p : Piece) : Prop := ∀ s x r, p s = some (x, r) → x ≠ []

/-!
Two shapes shared by the `re.sub` rewrites of the fix scripts: a rewrite that
keeps both captured groups around an inserted block, and a rewrite that keeps
only the first captured group and drops the matched tail.
-/

/-- Matcher for a substitution of the form
group1, separator, group2 rewritten to group1 ++ ins ++ group2. -/
def mkReplacer (g1p mid g2p : Piece) (ins : Doc) : Doc → Option (Doc × Doc) := fun s =>
  match g1p s with
  | none => none
  | some (g1, r1) =>
    match mid r1 with
    | none => none
    | some (_, r2) =>
      match g2p r2 with
      | none => none
      | some (g2, r3) => some (g1 ++ ins ++ g2, r3)

/-- Matcher for a substitution of the form
group1, matched tail rewritten to group1 ++ ins. -/
def mkDropper (g1p tailp : Piece) (ins : Doc) : Doc → Option (Doc × Doc) := fun s =>
  match g1p s with
  | none => none
  | some (g1, r1) =>
    match tailp r1 with
    | none => none
    | some (_, r2) => some (g1 ++ ins, r2)

/-!
Hand compilation of the root-structure substitution shared by
fix_all_remaining_errors.py (pattern2, function add_root_properties) and
fix-test-files.py (fix_root_structures, first pattern):
group 1 is a children array holding one paragraph object (with an inner,
bracket-free children payload) through its closing bracket-comma; group 2 is
the two closing braces; the replacement re-emits group 1, the four required
root fields, and group 2, dropping the whitespace that separated the groups.
-/
def rpPre : Piece :=
  pSeq (pLit "children: [") (pSeq pWs (pSeq (pLit "\x7b") (pSeq pWs
    (pSeq (pLit "type: \x27paragraph\x27,") (pSeq pWs (pSeq (pLit "version: 1,")
    (pSeq pWs (pLit "children: ["))))))))

def rpPost : Piece :=
  pSeq (pLit "],") (pSeq pWs (pSeq (pLit "\x7d,") (pSeq pWs (pLit "],"))))

def rootPropsG1 : Piece := pSeq rpPre (pSeq (pNot1 ']') rpPost)

def rootPropsG2 : Piece := pSeq (pLit "\x7d") (pSeq pWs (pLit "\x7d"))

/-- Replacement block inserted by add_root_properties. -/
def rootPropsIns : Doc :=
  ("\n              direction: null,\n              format: \x27\x27,\n              indent: 0,\n              version: 1,\n            ").toList

def rootPropsM : Doc → Option (Doc × Doc) :=
  mkReplacer rootPropsG1 pWs rootPropsG2 rootPropsIns

/-- One application of the root-structure rule to a whole document. -/
def addRootPropsSub (s : Doc) : Doc := reSub rootPropsM s

/-!
The canonical non-conformant site of the root-structure rule, parameterized
by the inner children payload `t` (arbitrary nonempty text without a closing
bracket), laid out with the indentation of the targeted test fixtures.
-/
def rpPreStr : Doc :=
  ("children: [").toList ++ (("\n  ").toList ++ (("\x7b").toList ++ (("\n    ").toList
    ++ (("type: \x27paragraph\x27,").toList ++ (("\n    ").toList ++ (("version: 1,").toList
    ++ (("\n    ").toList ++ ("children: [").toList)))))))

def rpPostStr : Doc :=
  ("],").toList ++ (("\n  ").toList ++ (("\x7d,").toList ++ (("\n").toList ++ ("],").toList)))

def rpG2str : Doc := ("\x7d").toList ++ ((" ").toList ++ ("\x7d").toList)

def rpTail : Doc :=
  (",").toList ++ (("\n  ").toList ++ (("\x7d,").toList ++ (("\n").toList
    ++ (("],").toList ++ (("\n").toList ++ rpG2str)))))

def rpSite (t : Doc) : Doc := rpPreStr ++ (t ++ (']' :: rpTail))

def rpG1 (t : Doc) : Doc := rpPreStr ++ (t ++ rpPostStr)

/-- The site after the rule has fired: group 1, the four root fields, group 2. -/
def rpFixed (t : Doc) : Doc := rpG1 t ++ rootPropsIns ++ rpG2str

/-- Helper text of the reordered conformant site used against claim C3: the
four required root fields are present inside the site span, but placed before
the children array instead of after it. -/
def c3Reordered : Doc :=
  ("root: \x7b direction: null, format: \x27\x27, indent: 0, version: 1, type: \x27root\x27, children: [ \x7b type: \x27paragraph\x27, version: 1, children: [\x7b type: \x27text\x27, text: \x27a\x27 \x7d], \x7d, ], \x7d \x7d").toList

/-- Join a list of field lines with newlines. -/
def joinNl : List Doc → Doc
  | [] => []
  | [x] => x
  | x :: xs => x ++ '\n' :: joinNl xs

/-- All ways to insert an element into a list. -/
def insertsOf (x : Doc) : List Doc → List (List Doc)
  | [] => [[x]]
  | y :: ys => (x :: y :: ys) :: (insertsOf x ys).map (y :: ·)

/-- All permutations of a list of field lines (structural, so it evaluates). -/
def permsOf : List Doc → List (List Doc)
  | [] => [[]]
  | x :: xs => ((permsOf xs).map (insertsOf x)).flatten

/-- The four required root-field lines. -/
def c3Fields : List Doc :=
  [("direction: null,").toList, ("format: \x27\x27,").toList,
   ("indent: 0,").toList, ("version: 1,").toList]

/-- A conformant site with the four required fields in trailing position,
in the field order given by `p`. -/
def c3TrailSite (p : List Doc) : Doc :=
  ("children: [\n  \x7b\n    type: \x27paragraph\x27,\n    version: 1,\n    children: [\x7b type: \x27text\x27, text: \x27a\x27 \x7d],\n  \x7d,\n],\n").toList
    ++ joinNl p ++ ("\n\x7d \x7d").toList

/-!
Hand compilation of the root-structure substitution of fix_test_files.py:
group 1 opens a root object and a children array, then lazily consumes any
text (including newlines) up to a closing bracket-comma whose continuation
matches whitespace, a closing brace, whitespace and a second closing brace;
the replacement re-emits group 1, the four root fields at sixteen-space
indentation, and group 2.  The lazy any-character star is compiled as a
shortest-first search.
-/
def tfHead : Piece :=
  pSeq (pLit "root: \x7b") (pSeq pWs1 (pSeq (pLit "type: \x27root\x27,")
    (pSeq pWs1 (pLit "children: ["))))

def tfG2 : Piece := pSeq (pLit "\x7d") (pSeq pWs1 (pLit "\x7d"))

/-- The closing pattern tried at each candidate end of the lazy star. -/
def tfClose : Doc → Option (Doc × Doc) := fun s =>
  match pLit "]," s with
  | none => none
  | some (_, r1) =>
    match pWs1 r1 with
    | none => none
    | some (_, r2) =>
      match tfG2 r2 with
      | none => none
      | some (g2, r3) => some (g2, r3)

/-- Shortest-first search: try the closing pattern, extend the lazy span by
one character on failure. -/
def tfScan : Nat → Doc → Doc → Option (Doc × Doc × Doc)
  | 0, _, _ => none
  | fuel + 1, acc, s =>
    match tfClose s with
    | some (g2, rest) => some (acc.reverse, g2, rest)
    | none =>
      match s with
      | [] => none
      | c :: s' => tfScan fuel (c :: acc) s'

/-- Replacement block of fix_test_files.py (sixteen-space indentation). -/
def tfIns : Doc :=
  ("\n                direction: null,\n                format: \x27\x27,\n                indent: 0,\n                version: 1,\n              ").toList

def tfM : Doc → Option (Doc × Doc) := fun s =>
  match tfHead s with
  | none => none
  | some (h, r1) =>
    match tfScan (r1.length + 1) [] r1 with
    | none => none
    | some (lzy, g2, rest) => some (h ++ lzy ++ ("],").toList ++ tfIns ++ g2, rest)

/-- One pass of the fix_test_files.py substitution over a document. -/
def fixRootTFSub (s : Doc) : Doc := reSub tfM s

/-- Model of the per-file action of fix_test_files.py: apply the substitution
and write the file back unconditionally (no comparison against the original
text is made before the write). -/
def fixTestFilesFile (d : Doc) : Doc × Bool := (fixRootTFSub d, true)

/-- Document on which the fix_test_files.py pipeline is not idempotent: the
string payload of the text node contains a bracket-comma and two braces, which
the lazy pattern mistakes for the end of the structure. -/
def c1Doc : Doc :=
  ("root: \x7b\n type: \x27root\x27,\n children: [\x7b type: \x27text\x27, text: \x27x], \x7d \x7drest\x27 \x7d],\n \x7d\n \x7d").toList

/-!
Hand compilation of the draft-insertion rewrite add_draft
(fix_all_remaining_errors.py pattern1, also fix-test-files.py
fix_user_creation pattern1) and of the draft-removal rewrite of
fix_user_creation.py.
-/
def adSkipStr : Doc := ("await payload.create(\x7b\n      ").toList

def adPre : Piece :=
  pSeq (pLit "await payload.create(\x7b") (pSeq pWs1 (pSeq (pLit "collection: \x27users\x27,")
    (pSeq pWs1 (pLit "data: \x7b"))))

def adG1 : Piece := pSeq adPre (pSeq (pNot1 '\x7d') (pLit "\x7d,"))

def adG2 : Piece := pLit "\x7d)"

def adIns : Doc := ("\n      draft: false,\n    ").toList

def addDraftM : Doc → Option (Doc × Doc) := mkReplacer adG1 pWs1 adG2 adIns

def addDraftSub (s : Doc) : Doc := reSub addDraftM s

def rdPre : Piece :=
  pSeq (pLit "collection: \x27users\x27,") (pSeq pWs (pLit "data: \x7b"))

def rdG1 : Piece := pSeq rdPre (pSeq (pNot1 '\x7d') (pLit "\x7d,"))

def rdTail : Piece :=
  pSeq pWs (pSeq (pLit "draft: false,") (pSeq pWs (pLit "\x7d")))

def rdIns : Doc := ("\n      \x7d").toList

def removeDraftM : Doc → Option (Doc × Doc) := mkDropper rdG1 rdTail rdIns

def removeDraftSub (s : Doc) : Doc := reSub removeDraftM s

/-- Counterexample document for C9: the whitespace before the closing of the
create call is a single space rather than a newline and six spaces. -/
def c9Ce : Doc :=
  ("await payload.create(\x7b collection: \x27users\x27, data: \x7b x \x7d, \x7d)").toList

/-- Canonical user-creation site with the six-space indentation of the
targeted files, parameterized by the data payload. -/
def c9Site (t : Doc) : Doc :=
  adSkipStr ++ (("collection: \x27users\x27,").toList ++ (("\n      ").toList
    ++ (("data: \x7b").toList ++ (t ++ ('\x7d' :: (',' :: (("\n      ").toList
    ++ ("\x7d)").toList)))))))

def adPreStr : Doc :=
  ("await payload.create(\x7b").toList ++ (("\n      ").toList
    ++ (("collection: \x27users\x27,").toList ++ (("\n      ").toList ++ ("data: \x7b").toList)))

def rdPreStr : Doc :=
  ("collection: \x27users\x27,").toList ++ (("\n      ").toList ++ ("data: \x7b").toList)

/-!
Model of the helper-injection fix add_lexical_helper of fix-test-files.py
(the same logic appears at module level in fix_all_test_content.py): when the
document does not contain the name createLexicalContent, search for the first
(leftmost) maximal block of import-like lines - an occurrence of the text
"import ", at least one further character on the same line, and a newline,
repeated greedily - and splice the helper text in at the end of that block.
The Boolean records whether the fix was reported.
-/

/-- The helper declaration text of fix-test-files.py. -/
def helperText : Doc :=
  ("\n// Helper for creating valid Lexical content\nconst createLexicalContent = (text: string) => (\x7b\n  root: \x7b\n    type: \x27root\x27,\n    children: [\n      \x7b\n        type: \x27paragraph\x27,\n        version: 1,\n        children: [\x7b type: \x27text\x27, text \x7d],\n        direction: null,\n        format: \x27\x27 as const,\n        indent: 0,\n      \x7d,\n    ],\n    direction: null,\n    format: \x27\x27 as const,\n    indent: 0,\n    version: 1,\n  \x7d,\n\x7d)\n").toList

/-- The helper name checked by the conformance guard. -/
def helperName : Doc := ("createLexicalContent").toList

/-- Length consumed by one import-like line at the start of the input, if any. -/
def importLineLen (s : Doc) : Option Nat :=
  match lit "import " s with
  | none => none
  | some r1 =>
    match r1.takeWhile (fun c => !(c = '\n')), r1.dropWhile (fun c => !(c = '\n')) with
    | [], _ => none
    | body, '\n' :: _ => some (7 + body.length + 1)
    | _, _ => none

/-- Total length of the maximal run of consecutive import-like lines. -/
def importBlockLen : Nat → Doc → Nat
  | 0, _ => 0
  | fuel + 1, s =>
    match importLineLen s with
    | none => 0
    | some k => k + importBlockLen fuel (s.drop k)

/-- End offset of the leftmost maximal import-like block, if any. -/
def searchImportsFrom : Nat → Nat → Doc → Option Nat
  | 0, _, _ => none
  | fuel + 1, pos, s =>
    match importLineLen s with
    | some k => some (pos + k + importBlockLen s.length (s.drop k))
    | none =>
      match s with
      | [] => none
      | _ :: s' => searchImportsFrom fuel (pos + 1) s'

def searchImports (d : Doc) : Option Nat := searchImportsFrom (d.length + 1) 0 d

/-- The helper-injection fix together with its change report. -/
def addLexicalHelperR (content : Doc) : Doc × Bool :=
  if containsStr content helperName then (content, false)
  else
    match searchImports content with
    | some e => (content.take e ++ helperText ++ content.drop e, true)
    | none => (content, false)

def addLexicalHelper (content : Doc) : Doc := (addLexicalHelperR content).1

/-- Lines of a document, split at newlines. -/
def linesOf : Doc → List Doc
  | [] => [[]]
  | c :: cs =>
    if c = '\n' then [] :: linesOf cs
    else
      match linesOf cs with
      | [] => [[c]]
      | l :: ls => (c :: l) :: ls

/-- Does some line of the document begin with an import statement? -/
def hasImportLine (d : Doc) : Bool :=
  (linesOf d).any (fun l => isPre (("import ").toList) l)

/-- Counterexample document for C10: no line is an import statement, but the
text "import b" occurs mid-line. -/
def c10Doc : Doc := ("a import b\nc").toList

/-- Counterexample document for C4: no helper declaration and no import-like
text at all, so the rule has nowhere to insert and does nothing. -/
def c4Doc : Doc := ("const x = 1\n").toList

/-- The helper text without its enclosing newlines, used to count
occurrences across the splice boundaries. -/
def helperCore : Doc :=
  ("// Helper for creating valid Lexical content\nconst createLexicalContent = (text: string) => (\x7b\n  root: \x7b\n    type: \x27root\x27,\n    children: [\n      \x7b\n        type: \x27paragraph\x27,\n        version: 1,\n        children: [\x7b type: \x27text\x27, text \x7d],\n        direction: null,\n        format: \x27\x27 as const,\n        indent: 0,\n      \x7d,\n    ],\n    direction: null,\n    format: \x27\x27 as const,\n    indent: 0,\n    version: 1,\n  \x7d,\n\x7d)").toList

def c4WitDoc : Doc := ("import x\nconst y = 1\n").toList

/-!
Hand compilation of the user-creation field-insertion fix (Fix 2 of
fix_user_creation in fix-test-files.py, also module-level in
fix_all_test_content.py): the pattern anchors on an email template literal,
a password field and a roles field; the replacement is computed from the
matched text by two Python str.replace passes, the first splicing the
firstName and lastName fields in front of the password field (duplicating
the password field), the second removing the duplicated password field when
the original separator was a newline and eight spaces.
-/
def u2Roles : Doc := ("roles: [\x27user\x27],").toList

def u2RolesNew : Doc :=
  ("firstName: \x27Test\x27,\n        lastName: \x27User\x27,\n        password: \x27test123\x27,\n        roles: [\x27user\x27],").toList

def u2PwFirst : Doc := ("password: \x27test123\x27,\n        firstName:").toList

def u2First : Doc := ("firstName:").toList

/-- Python str.replace: replace every occurrence, scanning left to right. -/
def replAllM (old new : Doc) : Doc → Option (Doc × Doc) := fun s =>
  if isPre old s then some (new, s.drop old.length) else none

def pyReplace (s old new : Doc) : Doc := reSub (replAllM old new) s

def u2Head : Piece := pLit "email: `test-"

def u2Tail : Piece :=
  pSeq (pLit "-$\x7bDate.now()\x7d@example.com`,") (pSeq pWs1
    (pSeq (pLit "password: \x27test123\x27,") (pSeq pWs1 (pLit "roles: [\x27user\x27],"))))

def u2Match : Piece := pSeq u2Head (pSeq pWord1 u2Tail)

def user2M : Doc → Option (Doc × Doc) := fun s =>
  match u2Match s with
  | none => none
  | some (g0, r) =>
    some (pyReplace (pyReplace g0 u2Roles u2RolesNew) u2PwFirst u2First, r)

def fixUser2Sub (s : Doc) : Doc := reSub user2M s

/-- Counterexample site for C5: a user-creation site carrying only the
fields email, password and roles, whose email is not the test template. -/
def c5Ce : Doc :=
  ("email: \x27a@b.com\x27,\n        password: \x27test123\x27,\n        roles: [\x27user\x27],").toList

def c5SiteA : Doc := ("email: `test-").toList

/-- The canonical template site, parameterized by the word payload of the
email template. -/
def c5Site (w : Doc) : Doc :=
  c5SiteA ++ (w ++ ('-' :: (("$\x7bDate.now()\x7d@example.com`,").toList
    ++ (("\n        ").toList ++ (("password: \x27test123\x27,").toList
    ++ (("\n        ").toList ++ ("roles: [\x27user\x27],").toList))))))

/-- The site after the first str.replace pass (roles rewritten, password
duplicated). -/
def c5Mid (w : Doc) : Doc :=
  c5SiteA ++ (w ++ ('-' :: (("$\x7bDate.now()\x7d@example.com`,").toList
    ++ (("\n        ").toList ++ (("password: \x27test123\x27,").toList
    ++ (("\n        ").toList ++ u2RolesNew))))))

/-- The fixed site: firstName and lastName inserted once, before password. -/
def c5Fixed (w : Doc) : Doc :=
  c5SiteA ++ (w ++ ('-' :: (("$\x7bDate.now()\x7d@example.com`,").toList
    ++ (("\n        ").toList ++ u2RolesNew))))

/-!
The remaining fixes of fix-test-files.py, modelled to complete the
process_file pipeline: the multi-paragraph root-structure pattern, the
another-email variant of the field insertion, and the lexical-content
replacement with its two optional field groups.
-/

/-- One repeated paragraph unit of the multi-paragraph root pattern. -/
def rpUnit : Piece :=
  pSeq (pLit "\x7b") (pSeq pWs (pSeq (pLit "type: \x27paragraph\x27,") (pSeq pWs
    (pSeq (pLit "version: 1,") (pSeq pWs (pSeq (pLit "children: [")
    (pSeq (pNot1 ']') (pSeq (pLit "],") (pSeq pWs (pSeq (pLit "\x7d,") pWs))))))))))

/-- Greedy one-or-more repetition of a unit. -/
def unitsFrom (unit : Piece) : Nat → Doc → Option (Doc × Doc)
  | 0, _ => none
  | fuel + 1, s =>
    match unit s with
    | none => none
    | some (x, r) =>
      match unitsFrom unit fuel r with
      | none => some (x, r)
      | some (y, r') => some (x ++ y, r')

def rpMultiG1 : Piece :=
  pSeq (pLit "children: [") (pSeq pWs
    (pSeq (fun t => unitsFrom rpUnit (t.length + 1) t) (pLit "],")))

def rootPropsMultiM : Doc → Option (Doc × Doc) :=
  mkReplacer rpMultiG1 pWs rootPropsG2 rootPropsIns

def addRootPropsMultiSub (s : Doc) : Doc := reSub rootPropsMultiM s

/-- The fix_root_structures method: the single-paragraph pattern, then the
multi-paragraph pattern. -/
def fixRootStructuresSub (s : Doc) : Doc := addRootPropsMultiSub (addRootPropsSub s)

def u3RolesNew : Doc :=
  ("firstName: \x27Another\x27,\n          lastName: \x27User\x27,\n          password: \x27test123\x27,\n          roles: [\x27user\x27],").toList

def u3PwFirst : Doc := ("password: \x27test123\x27,\n          firstName:").toList

def u3Match : Piece := pSeq (pLit "email: `another-") (pSeq pWord1 u2Tail)

def user3M : Doc → Option (Doc × Doc) := fun s =>
  match u3Match s with
  | none => none
  | some (g0, r) =>
    some (pyReplace (pyReplace g0 u2Roles u3RolesNew) u3PwFirst u2First, r)

def fixUser3Sub (s : Doc) : Doc := reSub user3M s

/-- The fix_user_creation method: draft insertion, then the two email
template fixes. -/
def fixUserCreationSub (s : Doc) : Doc := fixUser3Sub (fixUser2Sub (addDraftSub s))

/-- Optional trailing-field group of the lexical-content pattern. -/
def lcOptUnit : Piece :=
  pSeq (pLit "direction: null,") (pSeq pWs1 (pSeq (pLit "format: \x27\x27,")
    (pSeq pWs1 (pSeq (pLit "indent: 0,") (pSeq pWs1 (pSeq (pLit "version: 1,") pWs1))))))

/-- Optional group: try the group first, fall back to the empty match. -/
def pOpt (a : Piece) : Piece := fun s =>
  match a s with
  | some (x, r) => some (x, r)
  | none => some ([], s)

def lcPre : Piece :=
  pSeq (pLit "content: \x7b") (pSeq pWs1 (pSeq (pLit "root: \x7b") (pSeq pWs1
    (pSeq (pLit "type: \x27root\x27,") (pSeq pWs1 (pSeq (pLit "children: [")
    (pSeq pWs1 (pSeq (pLit "\x7b") (pSeq pWs1 (pSeq (pLit "type: \x27paragraph\x27,")
    (pSeq pWs1 (pSeq (pLit "version: 1,") (pSeq pWs1
    (pLit "children: [\x7b type: \x27text\x27, text: \x27"))))))))))))))

def lcPost : Piece :=
  pSeq (pLit "\x27 \x7d],") (pSeq pWs1 (pSeq (pOpt lcOptUnit) (pSeq (pLit "\x7d,")
    (pSeq pWs1 (pSeq (pLit "],") (pSeq pWs1 (pSeq (pOpt lcOptUnit)
    (pSeq (pLit "\x7d,") (pSeq pWs1 (pLit "\x7d,"))))))))))

def lexContentM : Doc → Option (Doc × Doc) := fun s =>
  match lcPre s with
  | none => none
  | some (_, r1) =>
    match pNot1 '\x27' r1 with
    | none => none
    | some (txt, r2) =>
      match lcPost r2 with
      | none => none
      | some (_, r3) =>
        some (("content: createLexicalContent(\x27").toList ++ txt ++ ("\x27),").toList, r3)

def fixLexContentSub (s : Doc) : Doc := reSub lexContentM s

/-- Rule names accepted by the argument parser of fix-test-files.py. -/
def fixTypeChoices : List String :=
  ["lexical-helper", "user-creation", "root-structures", "lexical-content"]

/-- Should a fix named `name` run, given the requested fix types?  Mirrors
the guard: run when no list was given, when the list is empty, or when the
name is in the list. -/
def applyFix (ft : Option (List String)) (name : String) : Bool :=
  match ft with
  | none => true
  | some l => l.isEmpty || l.contains name

/-- The content pipeline of process_file, in source order. -/
def processContent (ft : Option (List String)) (d : Doc) : Doc :=
  let d1 := if applyFix ft "lexical-helper" then addLexicalHelper d else d
  let d2 := if applyFix ft "user-creation" then fixUserCreationSub d1 else d1
  let d3 := if applyFix ft "root-structures" then fixRootStructuresSub d2 else d2
  if applyFix ft "lexical-content" then fixLexContentSub d3 else d3

/-- Model of process_file: run the pipeline, write the file back exactly when
the result differs from the original. -/
def processFile (ft : Option (List String)) (d : Doc) : Doc × Bool :=
  let c := processContent ft d
  (c, decide (c ≠ d))

/-- Model of argparse validation of the fix-types option: every provided
value must be one of the declared choices, otherwise parsing fails (and main
exits) before any file is processed. -/
def parseFixTypes (req : List String) : Except String (List String) :=
  if req.all (fun r => fixTypeChoices.contains r) then Except.ok req
  else Except.error "invalid choice"

/-- Model of main of fix-test-files.py: parse the requested fix types, then
process every file. -/
def mainRun (req : Option (List String)) (files : List Doc) :
    Except String (List (Doc × Bool)) :=
  match req with
  | none => Except.ok (files.map (processFile none))
  | some r =>
    match parseFixTypes r with
    | Except.error e => Except.error e
    | Except.ok ft => Except.ok (files.map (processFile (some ft)))

/-!
Modelled from the spec: the Boundary Scanner (spec section 4.1) is absent
from src/, whose scripts approximate structure with regular expressions; the
spec prescribes matchDelimiter(text, openIndex) as a single left-to-right
scan with a depth counter, skipping characters inside quoted string literals
via an in-string flag toggled by unescaped quotes with escape-character
awareness, failing with UnbalancedDelimiterError when no matching close
exists before end of text.  Here the failure is the none result.
-/
inductive SChar : Type where
  | norm : Char → SChar
  | esc : Char → SChar

/-- Well-formed nested-delimiter text for one delimiter kind: a sequence of
plain characters (not the delimiters, not a quote, not a backslash), quoted
string literals (whose bodies may contain any characters, braces and
brackets included, with backslash escapes), and properly nested delimiter
pairs. -/
inductive Chunk : Type where
  | nilC : Chunk
  | plain : Char → Chunk → Chunk
  | lstr : List SChar → Chunk → Chunk
  | nest : Chunk → Chunk → Chunk

def renderS : SChar → Doc
  | .norm c => [c]
  | .esc c => ['\\', c]

def renderSBody : List SChar → Doc
  | [] => []
  | x :: xs => renderS x ++ renderSBody xs

def renderChunk (op cl : Char) : Chunk → Doc
  | .nilC => []
  | .plain c r => c :: renderChunk op cl r
  | .lstr b r => '\x27' :: (renderSBody b ++ ('\x27' :: renderChunk op cl r))
  | .nest i r => op :: (renderChunk op cl i ++ (cl :: renderChunk op cl r))

def goodS : SChar → Bool
  | .norm c => !(c = '\x27') && !(c = '\\')
  | .esc _ => true

def goodChunk (op cl : Char) : Chunk → Bool
  | .nilC => true
  | .plain c r =>
    !(c = op) && !(c = cl) && !(c = '\x27') && !(c = '\\') && goodChunk op cl r
  | .lstr b r => b.all goodS && goodChunk op cl r
  | .nest i r => goodChunk op cl i && goodChunk op cl r

/-- Modelled from the spec: the scanning loop of the Boundary Scanner.
Arguments: remaining text, current index, depth, in-string flag, escape
flag.  Returns the index of the closing delimiter that brings the depth to
zero, or none (the UnbalancedDelimiterError) when the text ends first. -/
def scanDelim (op cl : Char) : Doc → Nat → Nat → Bool → Bool → Option Nat
  | [], _, _, _, _ => none
  | c :: rest, i, depth, inStr, escf =>
    if escf then scanDelim op cl rest (i + 1) depth inStr false
    else if inStr then
      if c = '\\' then scanDelim op cl rest (i + 1) depth true true
      else if c = '\x27' then scanDelim op cl rest (i + 1) depth false false
      else scanDelim op cl rest (i + 1) depth true false
    else
      if c = '\x27' then scanDelim op cl rest (i + 1) depth true false
      else if c = op then scanDelim op cl rest (i + 1) (depth + 1) false false
      else if c = cl then
        if depth = 1 then some i
        else scanDelim op cl rest (i + 1) (depth - 1) false false
      else scanDelim op cl rest (i + 1) depth false false

/-- Modelled from the spec: which closing delimiter matches an opening one. -/
def closeForDelim (c : Char) : Option Char :=
  if c = '\x7b' then some '\x7d' else if c = '[' then some ']' else none

/-- Modelled from the spec: matchDelimiter(text, openIndex).  The character
at openIndex selects the delimiter kind; none is the
UnbalancedDelimiterError (or an openIndex that does not hold an opening
delimiter, violating the contract precondition). -/
def matchDelimiter (text : Doc) (openIndex : Nat) : Option Nat :=
  match text.drop openIndex with
  | [] => none
  | c :: rest =>
    match closeForDelim c with
    | none => none
    | some cl => scanDelim c cl rest (openIndex + 1) 1 false false

/-- A concrete well-formed chunk: a plain character, a string literal whose
body contains a closing brace and an escaped quote, and a nested pair. -/
def c2WitChunk : Chunk :=
  .plain 'a' (.lstr [.norm '\x7d', .norm 'x', .esc '\x27'] (.nest (.plain 'b' .nilC) .nilC))

theorem reSubAux_congr (m : Doc → Option (Doc × Doc)) (hm : Consumes m) :
    ∀ f₁ f₂ s, s.length ≤ f₁ → s.length ≤ f₂ → reSubAux m f₁ s = reSubAux m f₂ s := by
  intro f₁
  induction f₁ with
  | zero =>
    intro f₂ s h₁ h₂
    have hs : s = [] := List.eq_nil_of_length_eq_zero (Nat.le_zero.mp h₁)
    subst hs
    cases f₂ <;> rfl
  | succ f ih =>
    intro f₂ s h₁ h₂
    cases s with
    | nil => cases f₂ <;> rfl
    | cons c cs =>
      cases f₂ with
      | zero => simp at h₂
      | succ f₂' =>
        simp only [reSubAux]
        cases hmc : m (c :: cs) with
        | none =>
          simp only []
          have := ih f₂' cs (by simpa using Nat.lt_succ_iff.mp (Nat.lt_of_lt_of_le (Nat.lt_succ_self _) (by simpa using h₁)))
            (by simpa using Nat.lt_succ_iff.mp (Nat.lt_of_lt_of_le (Nat.lt_succ_self _) (by simpa using h₂)))
          rw [this]
        | some pr =>
          obtain ⟨r, rest⟩ := pr
          simp only []
          have hlt := hm _ _ _ hmc
          simp only [List.length_cons] at hlt h₁ h₂
          have hr₁ : rest.length ≤ f := by omega
          have hr₂ : rest.length ≤ f₂' := by omega
          rw [ih f₂' rest hr₁ hr₂]

theorem reSub_nil (m : Doc → Option (Doc × Doc)) : reSub m [] = [] := rfl

theorem reSub_cons_none (m : Doc → Option (Doc × Doc)) {c : Char} {s : Doc}
    (h : m (c :: s) = none) : reSub m (c :: s) = c :: reSub m s := by
  unfold reSub
  simp only [List.length_cons, reSubAux, h]

theorem reSub_match (m : Doc → Option (Doc × Doc)) (hm : Consumes m) {s r rest : Doc}
    (h : m s = some (r, rest)) : reSub m s = r ++ reSub m rest := by
  have hlt := hm _ _ _ h
  cases s with
  | nil => simp at hlt
  | cons c cs =>
    unfold reSub
    simp only [List.length_cons, reSubAux, h]
    simp only [List.length_cons] at hlt
    rw [reSubAux_congr m hm cs.length rest.length rest (by omega) (by omega)]

theorem reSub_append_none (m : Doc → Option (Doc × Doc))
    (A B : Doc) (h : ∀ i, i < A.length → m (A.drop i ++ B) = none) :
    reSub m (A ++ B) = A ++ reSub m B := by
  induction A with
  | nil => simp
  | cons c A' ih =>
    have h0 : m (c :: (A' ++ B)) = none := by simpa using h 0 (by simp)
    rw [List.cons_append, reSub_cons_none m h0,
      ih (fun i hi => by simpa using h (i + 1) (by simpa using Nat.succ_lt_succ hi))]
    simp

theorem reSub_eq_self (m : Doc → Option (Doc × Doc))
    (A : Doc) (h : ∀ i, i < A.length → m (A.drop i) = none) :
    reSub m A = A := by
  have := reSub_append_none m A [] (fun i hi => by simpa using h i hi)
  rw [List.append_nil] at this
  rw [this, reSub_nil, List.append_nil]

theorem litL_sound : ∀ p s r, litL p s = some r → s = p ++ r := by
  intro p
  induction p with
  | nil => intro s r h; simp [litL] at h; simp [h]
  | cons q qs ih =>
    intro s r h
    cases s with
    | nil => simp [litL] at h
    | cons c cs =>
      simp only [litL] at h
      by_cases hc : c = q
      · rw [if_pos hc] at h
        subst hc
        simpa using ih cs r h
      · rw [if_neg hc] at h; exact absurd h (by simp)

theorem pLit_sound (p : String) : PSound (pLit p) := by
  intro s x r h
  unfold pLit at h
  cases hl : litL p.toList s with
  | none => rw [hl] at h; exact absurd h (by simp)
  | some r' =>
    rw [hl] at h
    obtain ⟨hx, hr⟩ : p.toList = x ∧ r' = r := by
      constructor <;> (injection h with h'; cases h'; rfl)
    subst hx; subst hr
    exact litL_sound _ _ _ hl

theorem pWs_sound : PSound pWs := by
  intro s x r h
  unfold pWs splitWs at h
  injection h with h'
  cases h'
  exact (List.takeWhile_append_dropWhile _ _).symm

theorem pWs1_sound : PSound pWs1 := by
  intro s x r h
  unfold pWs1 splitWs1 at h
  cases ht : s.takeWhile isWs with
  | nil => rw [ht] at h; exact absurd h (by simp)
  | cons c cs =>
    rw [ht] at h
    injection h with h'
    cases h'
    rw [← ht]
    exact (List.takeWhile_append_dropWhile _ _).symm

theorem pNot1_sound (bad : Char) : PSound (pNot1 bad) := by
  intro s x r h
  unfold pNot1 splitNot1 at h
  cases ht : s.takeWhile (fun c => !(c = bad)) with
  | nil => rw [ht] at h; exact absurd h (by simp)
  | cons c cs =>
    rw [ht] at h
    injection h with h'
    cases h'
    rw [← ht]
    exact (List.takeWhile_append_dropWhile _ _).symm

theorem pWord1_sound : PSound pWord1 := by
  intro s x r h
  unfold pWord1 splitWord1 at h
  cases ht : s.takeWhile isWordChar with
  | nil => rw [ht] at h; exact absurd h (by simp)
  | cons c cs =>
    rw [ht] at h
    injection h with h'
    cases h'
    rw [← ht]
    exact (List.takeWhile_append_dropWhile _ _).symm

theorem pSeq_sound {a b : Piece} (ha : PSound a) (hb : PSound b) : PSound (pSeq a b) := by
  intro s x r h
  unfold pSeq at h
  cases h1 : a s with
  | none => rw [h1] at h; exact absurd h (by simp)
  | some pr1 =>
    obtain ⟨x1, r1⟩ := pr1
    rw [h1] at h
    dsimp only at h
    cases h2 : b r1 with
    | none => rw [h2] at h; exact absurd h (by simp)
    | some pr2 =>
      obtain ⟨x2, r2⟩ := pr2
      rw [h2] at h
      injection h with h'
      cases h'
      rw [ha _ _ _ h1, hb _ _ _ h2, List.append_assoc]

theorem pLit_strict (p : String) (hp : p.toList ≠ []) : PStrict (pLit p) := by
  intro s x r h
  unfold pLit at h
  cases hl : litL p.toList s with
  | none => rw [hl] at h; exact absurd h (by simp)
  | some r' =>
    rw [hl] at h
    injection h with h'
    cases h'
    exact hp

theorem pSeq_strict_left {a b : Piece} (ha : PStrict a) : PStrict (pSeq a b) := by
  intro s x r h
  unfold pSeq at h
  cases h1 : a s with
  | none => rw [h1] at h; exact absurd h (by simp)
  | some pr1 =>
    obtain ⟨x1, r1⟩ := pr1
    rw [h1] at h
    dsimp only at h
    cases h2 : b r1 with
    | none => rw [h2] at h; exact absurd h (by simp)
    | some pr2 =>
      obtain ⟨x2, r2⟩ := pr2
      rw [h2] at h
      injection h with h'
      cases h'
      have := ha _ _ _ h1
      intro hx
      exact this (by cases x1 <;> simp_all)

/-- Rewriting lemma: a literal consumes exactly itself. -/
theorem pLit_append (p : String) (r : Doc) : pLit p (p.toList ++ r) = some (p.toList, r) := by
  unfold pLit
  have : ∀ q r' : Doc, litL q (q ++ r') = some r' := by
    intro q
    induction q with
    | nil => intro r'; rfl
    | cons c cs ih => intro r'; simp [litL, ih]
  rw [this]

theorem takeWhile_app {p : Char → Bool} {A : Doc} (hA : ∀ c ∈ A, p c = true)
    {d : Char} (hd : p d = false) (r : Doc) :
    (A ++ d :: r).takeWhile p = A ∧ (A ++ d :: r).dropWhile p = d :: r := by
  induction A with
  | nil => simp [List.takeWhile, List.dropWhile, hd]
  | cons c A' ih =>
    have hc : p c = true := hA c (by simp)
    have := ih (fun x hx => hA x (by simp [hx]))
    simp [List.takeWhile, List.dropWhile, hc, this.1, this.2]

/-- Rewriting lemma: the whitespace star consumes a whitespace run up to a
non-whitespace character. -/
theorem pWs_append {W : Doc} (hW : ∀ c ∈ W, isWs c = true)
    {d : Char} (hd : isWs d = false) (r : Doc) :
    pWs (W ++ d :: r) = some (W, d :: r) := by
  unfold pWs splitWs
  rw [(takeWhile_app hW hd r).1, (takeWhile_app hW hd r).2]

theorem pWs1_append {W : Doc} (hW : ∀ c ∈ W, isWs c = true) (hne : W ≠ [])
    {d : Char} (hd : isWs d = false) (r : Doc) :
    pWs1 (W ++ d :: r) = some (W, d :: r) := by
  unfold pWs1 splitWs1
  rw [(takeWhile_app hW hd r).1, (takeWhile_app hW hd r).2]
  cases W with
  | nil => exact absurd rfl hne
  | cons c cs => rfl

theorem pNot1_append (bad : Char) {t : Doc} (ht : ∀ c ∈ t, c ≠ bad) (hne : t ≠ [])
    (r : Doc) : pNot1 bad (t ++ bad :: r) = some (t, bad :: r) := by
  unfold pNot1 splitNot1
  have h1 : ∀ c ∈ t, (fun c => !(c = bad)) c = true := by
    intro c hc; simp [ht c hc]
  have h2 : (fun c => !(c = bad)) bad = false := by simp
  rw [(takeWhile_app h1 h2 r).1, (takeWhile_app h1 h2 r).2]
  cases t with
  | nil => exact absurd rfl hne
  | cons c cs => rfl

theorem pWord1_append {w : Doc} (hw : ∀ c ∈ w, isWordChar c = true) (hne : w ≠ [])
    {d : Char} (hd : isWordChar d = false) (r : Doc) :
    pWord1 (w ++ d :: r) = some (w, d :: r) := by
  unfold pWord1 splitWord1
  rw [(takeWhile_app hw hd r).1, (takeWhile_app hw hd r).2]
  cases w with
  | nil => exact absurd rfl hne
  | cons c cs => rfl

theorem pSeq_eq {a b : Piece} {s x r y r' : Doc} (h1 : a s = some (x, r))
    (h2 : b r = some (y, r')) : pSeq a b s = some (x ++ y, r') := by
  unfold pSeq
  rw [h1]
  dsimp only
  rw [h2]

/-- A literal matcher fails when the first character differs. -/
theorem pLit_ne_head {p : String} {q : Char} {qs : Doc} (hp : p.toList = q :: qs)
    {c : Char} (hc : c ≠ q) (s : Doc) : pLit p (c :: s) = none := by
  unfold pLit
  rw [hp]
  simp [litL, hc]

theorem pSeq_none_left {a b : Piece} {s : Doc} (h : a s = none) : pSeq a b s = none := by
  unfold pSeq
  rw [h]

theorem length_lt_of_split {s g1 r1 : Doc} (e1 : s = g1 ++ r1) (hg : g1 ≠ []) :
    r1.length < s.length := by
  subst e1
  cases g1 with
  | nil => exact absurd rfl hg
  | cons c cs => simp [List.length_append]; omega

theorem mkReplacer_consumes {g1p mid g2p : Piece} (hs1 : PSound g1p) (hsm : PSound mid)
    (hs2 : PSound g2p) (hst : PStrict g1p) (ins : Doc) :
    Consumes (mkReplacer g1p mid g2p ins) := by
  intro s r rest h
  unfold mkReplacer at h
  cases h1 : g1p s with
  | none => rw [h1] at h; exact absurd h (by simp)
  | some pr1 =>
    obtain ⟨g1, r1⟩ := pr1
    rw [h1] at h
    dsimp only at h
    cases h2 : mid r1 with
    | none => rw [h2] at h; exact absurd h (by simp)
    | some pr2 =>
      obtain ⟨w, r2⟩ := pr2
      rw [h2] at h
      dsimp only at h
      cases h3 : g2p r2 with
      | none => rw [h3] at h; exact absurd h (by simp)
      | some pr3 =>
        obtain ⟨g2, r3⟩ := pr3
        rw [h3] at h
        dsimp only at h
        injection h with h'
        cases h'
        have e1 := hs1 _ _ _ h1
        have e2 := hsm _ _ _ h2
        have e3 := hs2 _ _ _ h3
        have hg := hst _ _ _ h1
        have l3 : rest.length ≤ r2.length := by rw [e3]; simp
        have l2 : r2.length ≤ r1.length := by rw [e2]; simp
        have l1 : r1.length < s.length := length_lt_of_split e1 hg
        omega

theorem mkDropper_consumes {g1p tailp : Piece} (hs1 : PSound g1p) (hs2 : PSound tailp)
    (hst : PStrict g1p) (ins : Doc) :
    Consumes (mkDropper g1p tailp ins) := by
  intro s r rest h
  unfold mkDropper at h
  cases h1 : g1p s with
  | none => rw [h1] at h; exact absurd h (by simp)
  | some pr1 =>
    obtain ⟨g1, r1⟩ := pr1
    rw [h1] at h
    dsimp only at h
    cases h2 : tailp r1 with
    | none => rw [h2] at h; exact absurd h (by simp)
    | some pr2 =>
      obtain ⟨w, r2⟩ := pr2
      rw [h2] at h
      dsimp only at h
      injection h with h'
      cases h'
      have e1 := hs1 _ _ _ h1
      have e2 := hs2 _ _ _ h2
      have hg := hst _ _ _ h1
      have l2 : rest.length ≤ r1.length := by rw [e2]; simp
      have l1 : r1.length < s.length := length_lt_of_split e1 hg
      omega

theorem mkReplacer_eq {g1p mid g2p : Piece} {s g1 r1 w r2 g2 r3 : Doc} (ins : Doc)
    (h1 : g1p s = some (g1, r1)) (h2 : mid r1 = some (w, r2))
    (h3 : g2p r2 = some (g2, r3)) :
    mkReplacer g1p mid g2p ins s = some (g1 ++ ins ++ g2, r3) := by
  unfold mkReplacer
  rw [h1]
  dsimp only
  rw [h2]
  dsimp only
  rw [h3]

theorem mkDropper_eq {g1p tailp : Piece} {s g1 r1 w r2 : Doc} (ins : Doc)
    (h1 : g1p s = some (g1, r1)) (h2 : tailp r1 = some (w, r2)) :
    mkDropper g1p tailp ins s = some (g1 ++ ins, r2) := by
  unfold mkDropper
  rw [h1]
  dsimp only
  rw [h2]

theorem mkReplacer_none {g1p mid g2p : Piece} {s : Doc} (ins : Doc) (h : g1p s = none) :
    mkReplacer g1p mid g2p ins s = none := by
  unfold mkReplacer
  rw [h]

theorem mkDropper_none {g1p tailp : Piece} {s : Doc} (ins : Doc) (h : g1p s = none) :
    mkDropper g1p tailp ins s = none := by
  unfold mkDropper
  rw [h]

theorem rootPropsG1_sound : PSound rootPropsG1 := by
  unfold rootPropsG1 rpPre rpPost
  repeat'
    first
    | exact pLit_sound _
    | exact pWs_sound
    | exact pNot1_sound _
    | apply pSeq_sound

theorem rootPropsG2_sound : PSound rootPropsG2 := by
  unfold rootPropsG2
  repeat'
    first
    | exact pLit_sound _
    | exact pWs_sound
    | apply pSeq_sound

theorem rootPropsG1_strict : PStrict rootPropsG1 := by
  unfold rootPropsG1 rpPre
  apply pSeq_strict_left
  apply pSeq_strict_left
  exact pLit_strict _ (by decide)

theorem rootPropsM_consumes : Consumes rootPropsM :=
  mkReplacer_consumes rootPropsG1_sound pWs_sound rootPropsG2_sound rootPropsG1_strict _

theorem rootPropsM_ne_head {c : Char} (hc : c ≠ 'c') (s : Doc) :
    rootPropsM (c :: s) = none := by
  apply mkReplacer_none
  unfold rootPropsG1 rpPre
  exact pSeq_none_left (pSeq_none_left (pLit_ne_head rfl hc _))

theorem rpPre_run (X : Doc) : rpPre (rpPreStr ++ X) = some (rpPreStr, X) := rfl

theorem rootPropsM_site (t rest : Doc) (ht1 : t ≠ []) (ht2 : ∀ c ∈ t, c ≠ ']') :
    rootPropsM (rpSite t ++ rest) = some (rpFixed t, rest) := by
  have hNot : pNot1 ']' (t ++ ']' :: (rpTail ++ rest)) = some (t, ']' :: (rpTail ++ rest)) :=
    pNot1_append ']' ht2 ht1 _
  have hPost : rpPost (']' :: (rpTail ++ rest)) = some (rpPostStr, ("\n").toList ++ (rpG2str ++ rest)) := rfl
  have h1 : rootPropsG1 (rpSite t ++ rest) = some (rpG1 t, ("\n").toList ++ (rpG2str ++ rest)) := by
    have hshape : rpSite t ++ rest = rpPreStr ++ (t ++ (']' :: (rpTail ++ rest))) := by
      simp [rpSite, List.append_assoc]
    rw [hshape]
    exact pSeq_eq (rpPre_run _) (pSeq_eq hNot hPost)
  have hMid : pWs (("\n").toList ++ (rpG2str ++ rest)) = some (("\n").toList, rpG2str ++ rest) := rfl
  have hG2 : rootPropsG2 (rpG2str ++ rest) = some (rpG2str, rest) := rfl
  exact mkReplacer_eq rootPropsIns h1 hMid hG2

/-- Skipping lemma: a matcher that can only fire on its anchor character
leaves any anchor-free run of text untouched. -/
theorem reSub_append_avoid (m : Doc → Option (Doc × Doc)) (a : Char)
    (hm : ∀ c s, c ≠ a → m (c :: s) = none)
    {A : Doc} (B : Doc) (hA : ∀ c ∈ A, c ≠ a) :
    reSub m (A ++ B) = A ++ reSub m B := by
  apply reSub_append_none
  intro i hi
  cases hd : A.drop i with
  | nil =>
    have := congrArg List.length hd
    simp at this
    omega
  | cons c rest =>
    have hc : c ∈ A := List.drop_subset i A (by rw [hd]; exact List.mem_cons_self c rest)
    exact hm c _ (hA c hc)

theorem reSub_self_avoid (m : Doc → Option (Doc × Doc)) (a : Char)
    (hm : ∀ c s, c ≠ a → m (c :: s) = none)
    {A : Doc} (hA : ∀ c ∈ A, c ≠ a) :
    reSub m A = A := by
  have := reSub_append_avoid m a hm (A := A) [] hA
  rw [List.append_nil] at this
  rw [this, reSub_nil, List.append_nil]

/-- C6: given a document with two non-overlapping non-conformant sites of the
root-structure rule, one application call fixes both sites and every
character of the document outside the two site spans (the anchor-free runs
before, between and after the sites) is unchanged. -/
theorem C6_two_sites (A B C t1 t2 : Doc)
    (hA : ∀ c ∈ A, c ≠ 'c') (hB : ∀ c ∈ B, c ≠ 'c') (hC : ∀ c ∈ C, c ≠ 'c')
    (h1 : t1 ≠ []) (h1' : ∀ c ∈ t1, c ≠ ']')
    (h2 : t2 ≠ []) (h2' : ∀ c ∈ t2, c ≠ ']') :
    addRootPropsSub (A ++ rpSite t1 ++ B ++ rpSite t2 ++ C)
      = A ++ rpFixed t1 ++ B ++ rpFixed t2 ++ C := by
  unfold addRootPropsSub
  simp only [List.append_assoc]
  rw [reSub_append_avoid rootPropsM 'c' (fun c s h => rootPropsM_ne_head h s) _ hA]
  rw [reSub_match rootPropsM rootPropsM_consumes (rootPropsM_site t1 (B ++ (rpSite t2 ++ C)) h1 h1')]
  rw [reSub_append_avoid rootPropsM 'c' (fun c s h => rootPropsM_ne_head h s) _ hB]
  rw [reSub_match rootPropsM rootPropsM_consumes (rootPropsM_site t2 C h2 h2')]
  rw [reSub_self_avoid rootPropsM 'c' (fun c s h => rootPropsM_ne_head h s) hC]

/-- Witness for C6 at concrete payloads and frame texts. -/
theorem C6_two_sites_witness :
    addRootPropsSub (([] : Doc) ++ rpSite (("AA").toList) ++ (("\nmore text\n").toList)
        ++ rpSite (("BB").toList) ++ (("\n").toList))
      = ([] : Doc) ++ rpFixed (("AA").toList) ++ (("\nmore text\n").toList)
        ++ rpFixed (("BB").toList) ++ (("\n").toList) :=
  C6_two_sites [] _ _ _ _ (by decide) (by decide) (by decide) (by decide)
    (by decide) (by decide) (by decide)

/-- C3 fails as stated: on this site every one of the four required field
names direction, format, indent and version is present within the site span,
merely placed before the children array, yet the root-structure fix reports
a change and rewrites the span (the required fields get inserted a second
time), so the conformance gate is not the presence of the field names and is
not robust to field reordering. -/
theorem C3_counterexample :
    (containsStr c3Reordered (("direction:").toList) = true ∧
     containsStr c3Reordered (("format:").toList) = true ∧
     containsStr c3Reordered (("indent:").toList) = true ∧
     containsStr c3Reordered (("version:").toList) = true) ∧
    addRootPropsSub c3Reordered ≠ c3Reordered := by
  exact ⟨⟨by decide, by decide, by decide, by decide⟩, by decide⟩

/-- C3 amended: running the root-structure fix on a site whose four required
fields appear in trailing position, between the closing bracket of the
children array and the closing braces of the object, produces byte-identical
output for the span in all twenty-four field orders. -/
theorem C3_amended :
    ((permsOf c3Fields).all
      fun p => addRootPropsSub (c3TrailSite p) == c3TrailSite p) = true := by
  decide

theorem adG1_sound : PSound adG1 := by
  unfold adG1 adPre
  repeat'
    first
    | exact pLit_sound _
    | exact pWs1_sound
    | exact pNot1_sound _
    | apply pSeq_sound

theorem adG2_sound : PSound adG2 := pLit_sound _

theorem adG1_strict : PStrict adG1 := by
  unfold adG1 adPre
  apply pSeq_strict_left
  apply pSeq_strict_left
  exact pLit_strict _ (by decide)

theorem addDraftM_consumes : Consumes addDraftM :=
  mkReplacer_consumes adG1_sound pWs1_sound adG2_sound adG1_strict _

theorem rdG1_sound : PSound rdG1 := by
  unfold rdG1 rdPre
  repeat'
    first
    | exact pLit_sound _
    | exact pWs_sound
    | exact pNot1_sound _
    | apply pSeq_sound

theorem rdTail_sound : PSound rdTail := by
  unfold rdTail
  repeat'
    first
    | exact pLit_sound _
    | exact pWs_sound
    | apply pSeq_sound

theorem rdG1_strict : PStrict rdG1 := by
  unfold rdG1 rdPre
  apply pSeq_strict_left
  apply pSeq_strict_left
  exact pLit_strict _ (by decide)

theorem removeDraftM_consumes : Consumes removeDraftM :=
  mkDropper_consumes rdG1_sound rdTail_sound rdG1_strict _

theorem removeDraftM_ne_head {c : Char} (hc : c ≠ 'c') (s : Doc) :
    removeDraftM (c :: s) = none := by
  apply mkDropper_none
  unfold rdG1 rdPre
  exact pSeq_none_left (pSeq_none_left (pLit_ne_head rfl hc _))

theorem adPre_run (X : Doc) : adPre (adPreStr ++ X) = some (adPreStr, X) := rfl

theorem rdPre_run (X : Doc) : rdPre (rdPreStr ++ X) = some (rdPreStr, X) := rfl

/-- The draft-insertion rewrite fires on the canonical site and yields the
site with the draft field spliced in before the four-space-indented close. -/
theorem addDraftM_site (t : Doc) (ht1 : t ≠ []) (ht2 : ∀ c ∈ t, c ≠ '\x7d') :
    addDraftM (c9Site t)
      = some ((adPreStr ++ (t ++ ("\x7d,").toList)) ++ adIns ++ ("\x7d)").toList, []) := by
  have h1 : adG1 (c9Site t)
      = some (adPreStr ++ (t ++ ("\x7d,").toList), ("\n      ").toList ++ ("\x7d)").toList) := by
    show pSeq adPre (pSeq (pNot1 '\x7d') (pLit "\x7d,"))
        (adPreStr ++ (t ++ ('\x7d' :: (',' :: (("\n      ").toList ++ ("\x7d)").toList))))) = _
    exact pSeq_eq (adPre_run _)
      (pSeq_eq (pNot1_append '\x7d' ht2 ht1 _) rfl)
  have hMid : pWs1 (("\n      ").toList ++ ("\x7d)").toList)
      = some (("\n      ").toList, ("\x7d)").toList) := rfl
  have hG2 : adG2 (("\x7d)").toList) = some (("\x7d)").toList, []) := rfl
  exact mkReplacer_eq adIns h1 hMid hG2

theorem addDraftSub_site (t : Doc) (ht1 : t ≠ []) (ht2 : ∀ c ∈ t, c ≠ '\x7d') :
    addDraftSub (c9Site t)
      = (adPreStr ++ (t ++ ("\x7d,").toList)) ++ adIns ++ ("\x7d)").toList := by
  unfold addDraftSub
  rw [reSub_match addDraftM addDraftM_consumes (addDraftM_site t ht1 ht2), reSub_nil,
    List.append_nil]

/-- The draft-removal rewrite fires at the collection anchor of the
intermediate document and restores the canonical closing. -/
theorem removeDraftM_inter (t : Doc) (ht1 : t ≠ []) (ht2 : ∀ c ∈ t, c ≠ '\x7d') :
    removeDraftM (rdPreStr ++ (t ++ ('\x7d' :: (',' :: (adIns ++ ("\x7d)").toList)))))
      = some ((rdPreStr ++ (t ++ ("\x7d,").toList)) ++ rdIns, (")").toList) := by
  have h1 : rdG1 (rdPreStr ++ (t ++ ('\x7d' :: (',' :: (adIns ++ ("\x7d)").toList)))))
      = some (rdPreStr ++ (t ++ ("\x7d,").toList), adIns ++ ("\x7d)").toList) := by
    exact pSeq_eq (rdPre_run _)
      (pSeq_eq (pNot1_append '\x7d' ht2 ht1 _) rfl)
  have h2 : rdTail (adIns ++ ("\x7d)").toList)
      = some (("\n      ").toList ++ (("draft: false,").toList
          ++ (("\n    ").toList ++ ("\x7d").toList)), (")").toList) := rfl
  exact mkDropper_eq rdIns h1 h2

/-- C9 fails as stated: on this document the insertion pattern matches, yet
removal applied to the insertion's output does not restore the original text
(the whitespace before the closing of the create call is normalized away). -/
theorem C9_counterexample :
    addDraftSub c9Ce ≠ c9Ce ∧ removeDraftSub (addDraftSub c9Ce) ≠ c9Ce := by
  exact ⟨by decide, by decide⟩

/-- C9 amended: the draft-insertion and draft-removal rewrites are inverse on
every user-creation site whose data payload is brace-free and whose create
call closes with a newline and six spaces of indentation; on such sites the
insertion fires (it changes the text) and removal restores the original
byte-for-byte. -/
theorem C9_amended (t : Doc) (ht1 : t ≠ []) (ht2 : ∀ c ∈ t, c ≠ '\x7d') :
    removeDraftSub (addDraftSub (c9Site t)) = c9Site t
      ∧ addDraftSub (c9Site t) ≠ c9Site t := by
  constructor
  · rw [addDraftSub_site t ht1 ht2]
    simp only [List.append_assoc]
    show removeDraftSub (adSkipStr
        ++ (rdPreStr ++ (t ++ ('\x7d' :: (',' :: (adIns ++ ("\x7d)").toList)))))) = _
    unfold removeDraftSub
    rw [reSub_append_none removeDraftM adSkipStr _ ?hskip]
    case hskip =>
      intro i hi
      have h29 : adSkipStr.length = 29 := by decide
      rw [h29] at hi
      interval_cases i <;> rfl
    rw [reSub_match removeDraftM removeDraftM_consumes (removeDraftM_inter t ht1 ht2)]
    rw [reSub_self_avoid removeDraftM 'c' (fun c s h => removeDraftM_ne_head h s)
      (by decide)]
    simp only [c9Site, List.append_assoc, List.cons_append]
    rfl
  · intro h
    have hl := congrArg List.length h
    rw [addDraftSub_site t ht1 ht2] at hl
    simp only [c9Site, List.length_append, List.length_cons] at hl
    have e1 : adPreStr.length = 63 := by decide
    have e2 : (("\n      ").toList).length = 7 := by decide
    have e3 : (("collection: \x27users\x27,").toList).length = 20 := by decide
    have e4 : (("data: \x7b").toList).length = 7 := by decide
    have e5 : (("\x7d,").toList).length = 2 := by decide
    have e6 : adIns.length = 25 := by decide
    have e7 : (("\x7d)").toList).length = 2 := by decide
    have e8 : adSkipStr.length = 29 := by decide
    rw [e1, e2, e3, e4, e5, e6, e7, e8] at hl
    omega

/-- Witness for C9 at a concrete payload. -/
theorem C9_amended_witness :
    removeDraftSub (addDraftSub (c9Site ((" x ").toList))) = c9Site ((" x ").toList)
      ∧ addDraftSub (c9Site ((" x ").toList)) ≠ c9Site ((" x ").toList) :=
  C9_amended ((" x ").toList) (by decide) (by decide)

/-- C1 fails on the code: the root-structure pipeline of fix_test_files.py is
not idempotent.  On this document, whose string payload contains a
bracket-comma and two braces, the second application inserts the field block
again, so applying the pipeline twice differs from applying it once. -/
theorem C1_not_idempotent :
    fixRootTFSub (fixRootTFSub c1Doc) ≠ fixRootTFSub c1Doc := by decide

theorem isPre_length {p s : Doc} (h : isPre p s = true) : p.length ≤ s.length := by
  induction p generalizing s with
  | nil => simp
  | cons q qs ih =>
    cases s with
    | nil => simp [isPre] at h
    | cons c cs =>
      simp only [isPre, Bool.and_eq_true] at h
      simpa using ih h.2

theorem isPre_ne_head {q : Char} {qs : Doc} {c : Char} (hc : c ≠ q) (s : Doc) :
    isPre (q :: qs) (c :: s) = false := by
  simp [isPre, hc]

theorem isPre_append_left {p s : Doc} (h : p.length ≤ s.length) (t : Doc) :
    isPre p (s ++ t) = isPre p s := by
  induction p generalizing s with
  | nil => simp [isPre]
  | cons q qs ih =>
    cases s with
    | nil => simp at h
    | cons c cs =>
      simp only [List.length_cons, Nat.succ_le_succ_iff] at h
      simp only [List.cons_append, isPre, List.append_eq]
      rw [ih (by simpa using h)]

theorem isPre_false_short {p s : Doc} (h : s.length < p.length) : isPre p s = false := by
  cases hp : isPre p s with
  | false => rfl
  | true => exact absurd (isPre_length hp) (by omega)

theorem isPre_take {p s : Doc} (h : isPre p s = true) : s.take p.length = p := by
  induction p generalizing s with
  | nil => simp
  | cons q qs ih =>
    cases s with
    | nil => simp [isPre] at h
    | cons c cs =>
      simp only [isPre, Bool.and_eq_true, decide_eq_true_eq] at h
      simp [List.take_cons, h.1, ih h.2]

theorem isPre_subset {p s : Doc} (h : isPre p s = true) : ∀ c ∈ p, c ∈ s := by
  intro c hc
  have := isPre_take h
  rw [← this] at hc
  exact List.mem_of_mem_take hc

theorem isPre_blocker {p : Doc} {b : Char} (hp : ∀ c ∈ p, c ≠ b) {s : Doc}
    (h : s.length < p.length) (z : Doc) : isPre p (s ++ b :: z) = false := by
  cases hpre : isPre p (s ++ b :: z) with
  | false => rfl
  | true =>
    exfalso
    have htake := isPre_take hpre
    rw [List.take_append_eq_append_take] at htake
    have hs : s.take p.length = s := List.take_of_length_le (by omega)
    rw [hs] at htake
    have : b ∈ p := by
      rw [← htake]
      have h1 : p.length - s.length = (p.length - s.length - 1) + 1 := by omega
      rw [h1, List.take_succ_cons]
      exact List.mem_append_right _ (List.mem_cons_self b _)
    exact hp b this rfl

theorem countStr_cons_ne {q : Char} {qs : Doc} {b : Char} (h : b ≠ q) (z : Doc) :
    countStr (b :: z) (q :: qs) = countStr z (q :: qs) := by
  simp [countStr, isPre_ne_head h]

theorem countStr_append_blocker {p : Doc} {b : Char} (hp : ∀ c ∈ p, c ≠ b) (a z : Doc) :
    countStr (a ++ b :: z) p = countStr a p + countStr (b :: z) p := by
  induction a with
  | nil => simp [countStr]
  | cons c a' ih =>
    simp only [List.cons_append, countStr, List.append_eq]
    rw [ih]
    by_cases hlen : p.length ≤ (c :: a').length
    · have heq := isPre_append_left hlen (b :: z)
      simp only [List.cons_append] at heq
      simp only [heq, countStr]
      omega
    · have h1 : isPre p (c :: (a' ++ b :: z)) = false := by
        have := isPre_blocker hp (s := c :: a') (by omega) z
        simpa using this
      have h2 : isPre p (c :: a') = false := isPre_false_short (by simpa using hlen)
      simp [h1, h2, countStr]

theorem countStr_append_le (a b p : Doc) :
    countStr a p + countStr b p ≤ countStr (a ++ b) p := by
  induction a with
  | nil => simp [countStr]
  | cons c a' ih =>
    simp only [List.cons_append, countStr, List.append_eq]
    cases hpre : isPre p (c :: a') with
    | false => simpa using Nat.le_trans (by omega) (Nat.add_le_add_left ih _)
    | true =>
      have hmono : isPre p (c :: (a' ++ b)) = true := by
        have := isPre_append_left (isPre_length hpre) b
        simp only [List.cons_append] at this
        rw [this, hpre]
      simp only [hmono]
      simp
      omega

theorem countStr_zero_class {f : Char → Bool} {s p : Doc}
    (hs : ∀ c ∈ s, f c = true) (hp : ∃ c ∈ p, f c = false) : countStr s p = 0 := by
  induction s with
  | nil => rfl
  | cons c cs ih =>
    have hind : isPre p (c :: cs) = false := by
      cases hpre : isPre p (c :: cs) with
      | false => rfl
      | true =>
        obtain ⟨x, hx, hfx⟩ := hp
        have := hs x (isPre_subset hpre x hx)
        rw [this] at hfx
        exact absurd hfx (by simp)
    simp [countStr, hind, ih (fun x hx => hs x (by simp [hx]))]

theorem contains_pos {s p : Doc} (hp : p ≠ []) :
    containsStr s p = true ↔ 0 < countStr s p := by
  induction s with
  | nil =>
    simp [containsStr, countStr]
    cases p with
    | nil => exact absurd rfl hp
    | cons q qs => simp
  | cons c cs ih =>
    simp only [containsStr, countStr, Bool.or_eq_true]
    cases hpre : isPre p (c :: cs) with
    | false => simpa using ih
    | true => simp

theorem helper_split : helperText = '\n' :: (helperCore ++ ('\n' :: ([] : Doc))) := by decide

/-- Splicing the helper text into a document free of the helper name yields
exactly one occurrence of the name: the name contains no newline, and the
helper text begins and ends with one, so no occurrence crosses a boundary. -/
theorem countStr_insert (a b : Doc) (h : countStr (a ++ b) helperName = 0) :
    countStr (a ++ (helperText ++ b)) helperName = 1 := by
  have hle := countStr_append_le a b helperName
  have ha : countStr a helperName = 0 := by omega
  have hb : countStr b helperName = 0 := by omega
  have hp : ∀ c ∈ helperName, c ≠ '\n' := by decide
  have hsplit : helperText ++ b = '\n' :: (helperCore ++ ('\n' :: b)) := by
    rw [helper_split]
    simp
  rw [hsplit, countStr_append_blocker hp a (helperCore ++ ('\n' :: b))]
  have hq : helperName = 'c' :: (("reateLexicalContent").toList) := by decide
  rw [hq] at ha hb hp ⊢
  rw [countStr_cons_ne (by decide) _]
  rw [countStr_append_blocker hp helperCore b]
  rw [countStr_cons_ne (by decide) b]
  have hcore : countStr helperCore ('c' :: (("reateLexicalContent").toList)) = 1 := by decide
  omega

/-- C4 fails as stated: this document lacks the helper declaration, yet the
helper-injection fix inserts nothing and reports no change, because the
document has no import-like line to anchor the insertion. -/
theorem C4_counterexample :
    countStr c4Doc helperName = 0 ∧ addLexicalHelperR c4Doc = (c4Doc, false) := by
  exact ⟨by decide, by decide⟩

/-- C4 amended: on a document free of the helper name that has an import-like
block (with end offset e), the helper-injection fix splices the helper text
in exactly at e (the end of the first, leftmost such block), reports a
change, and afterwards the helper name occurs exactly once; reapplying the
fix to the result changes nothing, and any document already containing the
name anywhere is left unchanged with no reported change. -/
theorem C4_amended (d : Doc) (e : Nat)
    (h0 : countStr d helperName = 0)
    (h1 : searchImports d = some e) :
    addLexicalHelperR d = (d.take e ++ (helperText ++ d.drop e), true)
      ∧ countStr (d.take e ++ (helperText ++ d.drop e)) helperName = 1
      ∧ addLexicalHelperR (d.take e ++ (helperText ++ d.drop e))
          = (d.take e ++ (helperText ++ d.drop e), false)
      ∧ ∀ d', containsStr d' helperName = true → addLexicalHelperR d' = (d', false) := by
  have hne : helperName ≠ [] := by decide
  have hcont : containsStr d helperName = false := by
    cases hc : containsStr d helperName with
    | false => rfl
    | true =>
      have := (contains_pos hne).mp hc
      omega
  have hcount : countStr (d.take e ++ (helperText ++ d.drop e)) helperName = 1 := by
    apply countStr_insert
    rw [List.take_append_drop]
    exact h0
  refine ⟨?_, hcount, ?_, ?_⟩
  · simp [addLexicalHelperR, hcont, h1]
  · have hc2 : containsStr (d.take e ++ (helperText ++ d.drop e)) helperName = true := by
      rw [contains_pos hne]
      omega
    simp [addLexicalHelperR, hc2]
  · intro d' hd'
    simp [addLexicalHelperR, hd']

/-- Witness for C4 at a concrete document with one import line. -/
theorem C4_amended_witness :
    addLexicalHelperR c4WitDoc = (c4WitDoc.take 9 ++ (helperText ++ c4WitDoc.drop 9), true)
      ∧ countStr (c4WitDoc.take 9 ++ (helperText ++ c4WitDoc.drop 9)) helperName = 1
      ∧ addLexicalHelperR (c4WitDoc.take 9 ++ (helperText ++ c4WitDoc.drop 9))
          = (c4WitDoc.take 9 ++ (helperText ++ c4WitDoc.drop 9), false)
      ∧ ∀ d', containsStr d' helperName = true → addLexicalHelperR d' = (d', false) :=
  C4_amended c4WitDoc 9 (by decide) (by decide)

/-- C10 fails as stated: in this document no line is an import statement and
the helper name is absent, yet the helper-injection fix changes the document
and reports a change, because the import-like search also matches the text
"import " in the middle of a line. -/
theorem C10_counterexample :
    containsStr c10Doc helperName = false ∧ hasImportLine c10Doc = false
      ∧ (addLexicalHelperR c10Doc).1 ≠ c10Doc ∧ (addLexicalHelperR c10Doc).2 = true := by
  exact ⟨by decide, by decide, by decide, by decide⟩

/-- C10 amended: if the document does not contain the helper name and the
import-like search finds no occurrence of "import " followed by a nonempty
rest-of-line and a newline anywhere (not only at line starts), the
helper-injection fix returns the document unchanged and reports no change. -/
theorem C10_amended (d : Doc) (h1 : containsStr d helperName = false)
    (h2 : searchImports d = none) : addLexicalHelperR d = (d, false) := by
  simp [addLexicalHelperR, h1, h2]

/-- Witness for C10 at a concrete import-free document. -/
theorem C10_amended_witness :
    addLexicalHelperR (("hello\nworld").toList) = ((("hello\nworld").toList), false) :=
  C10_amended _ (by decide) (by decide)

theorem u2Match_sound : PSound u2Match := by
  unfold u2Match u2Head u2Tail
  repeat'
    first
    | exact pLit_sound _
    | exact pWs1_sound
    | exact pWord1_sound
    | apply pSeq_sound

theorem u2Match_strict : PStrict u2Match := by
  unfold u2Match u2Head
  apply pSeq_strict_left
  exact pLit_strict _ (by decide)

theorem user2M_consumes : Consumes user2M := by
  intro s r rest h
  unfold user2M at h
  cases h1 : u2Match s with
  | none => rw [h1] at h; exact absurd h (by simp)
  | some pr =>
    obtain ⟨g0, r0⟩ := pr
    rw [h1] at h
    dsimp only at h
    injection h with h'
    cases h'
    exact length_lt_of_split (u2Match_sound _ _ _ h1) (u2Match_strict _ _ _ h1)

theorem replAllM_ne_head {q : Char} {qs : Doc} {new : Doc} {c : Char} (hc : c ≠ q)
    (s : Doc) : replAllM (q :: qs) new (c :: s) = none := by
  simp [replAllM, isPre_ne_head hc]

/-- The roles pattern cannot begin inside a run of word characters followed
by a hyphen: its colon would have to fall on a word character, and its first
characters cannot match the hyphen. -/
theorem isPre_roles_break (d Z : Doc) (hd : ∀ c ∈ d, isWordChar c = true) :
    isPre u2Roles (d ++ ('-' :: Z)) = false := by
  have hu : u2Roles = 'r' :: 'o' :: 'l' :: 'e' :: 's' :: ':' :: ((" [\x27user\x27],").toList) := by
    decide
  match d with
  | [] => rw [hu]; simp [isPre]
  | [a] => rw [hu]; simp [isPre]
  | [a, b] => rw [hu]; simp [isPre]
  | [a, b, c] => rw [hu]; simp [isPre]
  | [a, b, c, e] => rw [hu]; simp [isPre]
  | [a, b, c, e, f] => rw [hu]; simp [isPre]
  | a :: b :: c :: e :: f :: g :: rest =>
    have hf : g ≠ ':' := by
      intro hcl
      have := hd g (by simp)
      rw [hcl] at this
      exact absurd this (by decide)
    rw [hu]
    simp [isPre, hf]

/-- The duplicated-password pattern cannot begin inside a run of word
characters followed by a hyphen. -/
theorem isPre_pw_break (d Z : Doc) (hd : ∀ c ∈ d, isWordChar c = true) :
    isPre u2PwFirst (d ++ ('-' :: Z)) = false := by
  have hu : u2PwFirst
      = 'p' :: 'a' :: 's' :: 's' :: 'w' :: 'o' :: 'r' :: 'd' :: ':'
        :: ((" \x27test123\x27,\n        firstName:").toList) := by decide
  match d with
  | [] => rw [hu]; simp [isPre]
  | [a] => rw [hu]; simp [isPre]
  | [a, b] => rw [hu]; simp [isPre]
  | [a, b, c] => rw [hu]; simp [isPre]
  | [a, b, c, e] => rw [hu]; simp [isPre]
  | [a, b, c, e, f] => rw [hu]; simp [isPre]
  | [a, b, c, e, f, g] => rw [hu]; simp [isPre]
  | [a, b, c, e, f, g, i] => rw [hu]; simp [isPre]
  | [a, b, c, e, f, g, i, j] => rw [hu]; simp [isPre]
  | a :: b :: c :: e :: f :: g :: i :: j :: k :: rest =>
    have hf : k ≠ ':' := by
      intro hcl
      have := hd k (by simp)
      rw [hcl] at this
      exact absurd this (by decide)
    rw [hu]
    simp [isPre, hf]

theorem pyReplace_roles (w : Doc) (hw : ∀ c ∈ w, isWordChar c = true) :
    pyReplace (c5Site w) u2Roles u2RolesNew = c5Mid w := by
  unfold pyReplace c5Site c5Mid
  have hm : ∀ (c : Char) (s : Doc), c ≠ 'r' → replAllM u2Roles u2RolesNew (c :: s) = none := by
    intro c s hc
    rw [show u2Roles = 'r' :: (("oles: [\x27user\x27],").toList) from by decide]
    exact replAllM_ne_head hc s
  rw [reSub_append_avoid _ 'r' hm _ (by decide)]
  rw [reSub_append_none _ w _ ?hword]
  case hword =>
    intro i hi
    cases hdrop : w.drop i with
    | nil =>
      have := congrArg List.length hdrop
      simp at this
      omega
    | cons c d' =>
      have hsub : ∀ x ∈ c :: d', isWordChar x = true := by
        intro x hx
        exact hw x (List.drop_subset i w (hdrop ▸ hx))
      have := isPre_roles_break (c :: d')
        ((("$\x7bDate.now()\x7d@example.com`,").toList
          ++ (("\n        ").toList ++ (("password: \x27test123\x27,").toList
          ++ (("\n        ").toList ++ ("roles: [\x27user\x27],").toList))))) hsub
      simp only [List.cons_append, List.append_eq] at this ⊢
      simp only [replAllM]
      rw [if_neg]
      intro hfalse
      rw [hfalse] at this
      exact absurd this (by simp)
  rw [show reSub (replAllM u2Roles u2RolesNew)
        ('-' :: (("$\x7bDate.now()\x7d@example.com`,").toList
          ++ (("\n        ").toList ++ (("password: \x27test123\x27,").toList
          ++ (("\n        ").toList ++ ("roles: [\x27user\x27],").toList)))))
      = '-' :: (("$\x7bDate.now()\x7d@example.com`,").toList
          ++ (("\n        ").toList ++ (("password: \x27test123\x27,").toList
          ++ (("\n        ").toList ++ u2RolesNew)))) from by decide]

theorem pyReplace_pw (w : Doc) (hw : ∀ c ∈ w, isWordChar c = true) :
    pyReplace (c5Mid w) u2PwFirst u2First = c5Fixed w := by
  unfold pyReplace c5Mid c5Fixed
  have hm : ∀ (c : Char) (s : Doc), c ≠ 'p' → replAllM u2PwFirst u2First (c :: s) = none := by
    intro c s hc
    rw [show u2PwFirst
        = 'p' :: (("assword: \x27test123\x27,\n        firstName:").toList) from by decide]
    exact replAllM_ne_head hc s
  rw [reSub_append_avoid _ 'p' hm _ (by decide)]
  rw [reSub_append_none _ w _ ?hword]
  case hword =>
    intro i hi
    cases hdrop : w.drop i with
    | nil =>
      have := congrArg List.length hdrop
      simp at this
      omega
    | cons c d' =>
      have hsub : ∀ x ∈ c :: d', isWordChar x = true := by
        intro x hx
        exact hw x (List.drop_subset i w (hdrop ▸ hx))
      have := isPre_pw_break (c :: d')
        ((("$\x7bDate.now()\x7d@example.com`,").toList
          ++ (("\n        ").toList ++ (("password: \x27test123\x27,").toList
          ++ (("\n        ").toList ++ u2RolesNew))))) hsub
      simp only [List.cons_append, List.append_eq] at this ⊢
      simp only [replAllM]
      rw [if_neg]
      intro hfalse
      rw [hfalse] at this
      exact absurd this (by simp)
  rw [show reSub (replAllM u2PwFirst u2First)
        ('-' :: (("$\x7bDate.now()\x7d@example.com`,").toList
          ++ (("\n        ").toList ++ (("password: \x27test123\x27,").toList
          ++ (("\n        ").toList ++ u2RolesNew)))))
      = '-' :: (("$\x7bDate.now()\x7d@example.com`,").toList
          ++ (("\n        ").toList ++ u2RolesNew)) from by decide]

theorem user2M_site (w : Doc) (hw1 : w ≠ []) (hw2 : ∀ c ∈ w, isWordChar c = true) :
    user2M (c5Site w) = some (c5Fixed w, []) := by
  have hword : pWord1 (w ++ ('-' :: (("$\x7bDate.now()\x7d@example.com`,").toList
      ++ (("\n        ").toList ++ (("password: \x27test123\x27,").toList
      ++ (("\n        ").toList ++ ("roles: [\x27user\x27],").toList))))))
      = some (w, '-' :: (("$\x7bDate.now()\x7d@example.com`,").toList
      ++ (("\n        ").toList ++ (("password: \x27test123\x27,").toList
      ++ (("\n        ").toList ++ ("roles: [\x27user\x27],").toList))))) :=
    pWord1_append hw2 hw1 (by decide : isWordChar '-' = false) _
  have hmatch : u2Match (c5Site w) = some (c5Site w, []) := by
    exact pSeq_eq (pLit_append "email: `test-" _) (pSeq_eq hword rfl)
  unfold user2M
  rw [hmatch]
  dsimp only
  rw [pyReplace_roles w hw2, pyReplace_pw w hw2]

/-- C5 fails as stated: this user-creation site contains only the fields
email, password and roles, yet the field-insertion rule leaves it unchanged
and no firstName field appears, because its email literal does not match the
hard-coded test template of the pattern. -/
theorem C5_counterexample :
    fixUser2Sub c5Ce = c5Ce ∧ containsStr c5Ce (("firstName:").toList) = false := by
  exact ⟨by decide, by decide⟩

/-- C5 amended: on every user-creation site matching the hard-coded template
(email of the form test-word-template, password test123, roles user, with
newline-and-eight-space separators), the field-insertion rule yields exactly
the site with firstName and lastName inserted once immediately before the
password anchor, with the order of the other fields preserved; the firstName
field name occurs exactly once in the output and not at all in the input. -/
theorem C5_amended (w : Doc) (hw1 : w ≠ []) (hw2 : ∀ c ∈ w, isWordChar c = true) :
    fixUser2Sub (c5Site w) = c5Fixed w
      ∧ countStr (c5Fixed w) u2First = 1
      ∧ countStr (c5Site w) u2First = 0 := by
  refine ⟨?_, ?_, ?_⟩
  · unfold fixUser2Sub
    rw [reSub_match user2M user2M_consumes (user2M_site w hw1 hw2), reSub_nil,
      List.append_nil]
  · have hp : ∀ c ∈ u2First, c ≠ '-' := by decide
    have heq : c5Fixed w = ("email: `test").toList
        ++ ('-' :: (w ++ ('-' :: (("$\x7bDate.now()\x7d@example.com`,").toList
          ++ (("\n        ").toList ++ u2RolesNew))))) := by
      unfold c5Fixed
      rw [show c5SiteA = ("email: `test").toList ++ ['-'] from by decide]
      simp
    rw [heq, countStr_append_blocker hp]
    have h1 : countStr (("email: `test").toList) u2First = 0 := by decide
    rw [h1]
    rw [show u2First = 'f' :: (("irstName:").toList) from by decide] at hp ⊢
    rw [countStr_cons_ne (by decide)]
    rw [countStr_append_blocker hp]
    have h2 : countStr w ('f' :: (("irstName:").toList)) = 0 :=
      countStr_zero_class hw2 ⟨':', by decide, by decide⟩
    rw [h2, countStr_cons_ne (by decide)]
    have h3 : countStr ((("$\x7bDate.now()\x7d@example.com`,").toList
        ++ (("\n        ").toList ++ u2RolesNew))) ('f' :: (("irstName:").toList)) = 1 := by
      decide
    rw [h3]
  · have hp : ∀ c ∈ u2First, c ≠ '-' := by decide
    have heq : c5Site w = ("email: `test").toList
        ++ ('-' :: (w ++ ('-' :: (("$\x7bDate.now()\x7d@example.com`,").toList
          ++ (("\n        ").toList ++ (("password: \x27test123\x27,").toList
          ++ (("\n        ").toList ++ ("roles: [\x27user\x27],").toList))))))) := by
      unfold c5Site
      rw [show c5SiteA = ("email: `test").toList ++ ['-'] from by decide]
      simp
    rw [heq, countStr_append_blocker hp]
    have h1 : countStr (("email: `test").toList) u2First = 0 := by decide
    rw [h1]
    rw [show u2First = 'f' :: (("irstName:").toList) from by decide] at hp ⊢
    rw [countStr_cons_ne (by decide)]
    rw [countStr_append_blocker hp]
    have h2 : countStr w ('f' :: (("irstName:").toList)) = 0 :=
      countStr_zero_class hw2 ⟨':', by decide, by decide⟩
    rw [h2, countStr_cons_ne (by decide)]
    have h3 : countStr ((("$\x7bDate.now()\x7d@example.com`,").toList
        ++ (("\n        ").toList ++ (("password: \x27test123\x27,").toList
          ++ (("\n        ").toList ++ ("roles: [\x27user\x27],").toList)))))
        ('f' :: (("irstName:").toList)) = 0 := by decide
    rw [h3]

/-- Witness for C5 at the blogs slug. -/
theorem C5_amended_witness :
    fixUser2Sub (c5Site (("blogs").toList)) = c5Fixed (("blogs").toList)
      ∧ countStr (c5Fixed (("blogs").toList)) u2First = 1
      ∧ countStr (c5Site (("blogs").toList)) u2First = 0 :=
  C5_amended (("blogs").toList) (by decide) (by decide)

/-- C7 fails as stated: fix_test_files.py writes the file back even when no
rule produced a change - on this document the substitution is the identity,
yet the write flag is set. -/
theorem C7_counterexample :
    fixRootTFSub (("hello").toList) = ("hello").toList
      ∧ fixTestFilesFile (("hello").toList) = ((("hello").toList), true) := by
  exact ⟨by decide, by decide⟩

/-- C7 amended: the consolidated fixer process_file persists exactly when the
pipeline output differs from the original text; the write flag is set if and
only if the current text is not the original. -/
theorem C7_amended (ft : Option (List String)) (d : Doc) :
    (processFile ft d).2 = true ↔ (processFile ft d).1 ≠ d := by
  simp [processFile]

/-- C8: requesting a fix-type name outside the catalog makes the whole
invocation fail with the argparse choice error, immediately and regardless
of the file list, and no file is processed (no partial application). -/
theorem C8_unknown_rule (req : List String) (r : String) (h1 : r ∈ req)
    (h2 : r ∉ fixTypeChoices) :
    (∀ files, mainRun (some req) files = Except.error "invalid choice")
      ∧ ∀ files files', mainRun (some req) files = mainRun (some req) files' := by
  have hall : req.all (fun x => fixTypeChoices.contains x) = false := by
    cases ha : req.all (fun x => fixTypeChoices.contains x) with
    | false => rfl
    | true =>
      have := List.all_eq_true.mp ha r h1
      simp at this
      exact absurd this h2
  constructor
  · intro files
    unfold mainRun parseFixTypes
    dsimp only
    rw [hall]
    simp
  · intro files files'
    unfold mainRun parseFixTypes
    dsimp only
    rw [hall]
    simp

/-- Witness for C8 with an unknown rule name and a nonempty file list. -/
theorem C8_unknown_rule_witness :
    mainRun (some ["bogus"]) [("x").toList] = Except.error "invalid choice" :=
  (C8_unknown_rule ["bogus"] "bogus" (by decide) (by decide)).1 [("x").toList]

theorem scan_strbody (op cl : Char) (b : List SChar) (hb : b.all goodS = true) :
    ∀ (rest : Doc) (i depth : Nat),
      scanDelim op cl (renderSBody b ++ rest) i depth true false
        = scanDelim op cl rest (i + (renderSBody b).length) depth true false := by
  induction b with
  | nil => intro rest i depth; simp [renderSBody]
  | cons x xs ih =>
    intro rest i depth
    have hx : goodS x = true := by
      have := List.all_eq_true.mp hb x (by simp)
      simpa using this
    have hxs : xs.all goodS = true := by
      rw [List.all_eq_true]
      intro y hy
      exact List.all_eq_true.mp hb y (by simp [hy])
    cases x with
    | norm c =>
      have h1 : ¬(c = '\x27') := by
        simp [goodS] at hx
        exact fun h => by rw [h] at hx; revert hx; decide
      have h2 : ¬(c = '\\') := by
        simp [goodS] at hx
        exact fun h => by rw [h] at hx; revert hx; decide
      simp only [renderSBody, renderS, List.cons_append, List.nil_append]
      rw [show scanDelim op cl (c :: (renderSBody xs ++ rest)) i depth true false
          = scanDelim op cl (renderSBody xs ++ rest) (i + 1) depth true false from by
        simp [scanDelim, h1, h2]]
      rw [ih hxs rest (i + 1) depth]
      congr 1
      simp [List.length_append, renderS]
      omega
    | esc c =>
      simp only [renderSBody, renderS, List.cons_append, List.append_assoc,
        List.nil_append]
      rw [show scanDelim op cl ('\\' :: (c :: (renderSBody xs ++ rest))) i depth true false
          = scanDelim op cl (c :: (renderSBody xs ++ rest)) (i + 1) depth true true from by
        simp [scanDelim]]
      rw [show scanDelim op cl (c :: (renderSBody xs ++ rest)) (i + 1) depth true true
          = scanDelim op cl (renderSBody xs ++ rest) (i + 2) depth true false from by
        simp [scanDelim]]
      rw [ih hxs rest (i + 2) depth]
      congr 1
      simp [List.length_append, renderS]
      omega

theorem scan_through (op cl : Char) (hq : op ≠ '\x27') (hcq : cl ≠ '\x27')
    (hoc : cl ≠ op) (ch : Chunk) :
    goodChunk op cl ch = true →
    ∀ (rest : Doc) (i depth : Nat), 0 < depth →
      scanDelim op cl (renderChunk op cl ch ++ rest) i depth false false
        = scanDelim op cl rest (i + (renderChunk op cl ch).length) depth false false := by
  induction ch with
  | nilC =>
    intro _ rest i depth _
    simp [renderChunk]
  | plain c r ihr =>
    intro hg rest i depth hd
    simp only [goodChunk, Bool.and_eq_true, Bool.not_eq_true', decide_eq_false_iff_not] at hg
    obtain ⟨⟨⟨⟨h1, h2⟩, h3⟩, h4⟩, h5⟩ := hg
    simp only [renderChunk, List.cons_append]
    rw [show scanDelim op cl (c :: (renderChunk op cl r ++ rest)) i depth false false
        = scanDelim op cl (renderChunk op cl r ++ rest) (i + 1) depth false false from by
      simp [scanDelim, h1, h2, h3]]
    rw [ihr h5 rest (i + 1) depth hd]
    rw [show i + 1 + (renderChunk op cl r).length
        = i + (c :: renderChunk op cl r).length from by simp; omega]
  | lstr b r ihr =>
    intro hg rest i depth hd
    simp only [goodChunk, Bool.and_eq_true] at hg
    obtain ⟨hb, hr⟩ := hg
    simp only [renderChunk, List.cons_append, List.append_assoc]
    rw [show scanDelim op cl
          ('\x27' :: (renderSBody b ++ ('\x27' :: (renderChunk op cl r ++ rest)))) i depth
          false false
        = scanDelim op cl (renderSBody b ++ ('\x27' :: (renderChunk op cl r ++ rest)))
          (i + 1) depth true false from by simp [scanDelim]]
    rw [scan_strbody op cl b hb ('\x27' :: (renderChunk op cl r ++ rest)) (i + 1) depth]
    rw [show scanDelim op cl ('\x27' :: (renderChunk op cl r ++ rest))
          (i + 1 + (renderSBody b).length) depth true false
        = scanDelim op cl (renderChunk op cl r ++ rest)
          (i + 1 + (renderSBody b).length + 1) depth false false from by
      simp [scanDelim]]
    rw [ihr hr rest (i + 1 + (renderSBody b).length + 1) depth hd]
    rw [show i + 1 + (renderSBody b).length + 1 + (renderChunk op cl r).length
        = i + ('\x27' :: (renderSBody b ++ ('\x27' :: renderChunk op cl r))).length from by
      simp [List.length_append]
      omega]
  | nest inner r ihi ihr =>
    intro hg rest i depth hd
    simp only [goodChunk, Bool.and_eq_true] at hg
    obtain ⟨hgi, hgr⟩ := hg
    simp only [renderChunk, List.cons_append, List.append_assoc]
    rw [show scanDelim op cl
          (op :: (renderChunk op cl inner ++ (cl :: (renderChunk op cl r ++ rest)))) i depth
          false false
        = scanDelim op cl (renderChunk op cl inner ++ (cl :: (renderChunk op cl r ++ rest)))
          (i + 1) (depth + 1) false false from by
      simp [scanDelim, hq]]
    rw [ihi hgi (cl :: (renderChunk op cl r ++ rest)) (i + 1) (depth + 1) (by omega)]
    rw [show scanDelim op cl (cl :: (renderChunk op cl r ++ rest))
          (i + 1 + (renderChunk op cl inner).length) (depth + 1) false false
        = scanDelim op cl (renderChunk op cl r ++ rest)
          (i + 1 + (renderChunk op cl inner).length + 1) depth false false from by
      have hd1 : ¬(depth + 1 = 1) := by omega
      simp [scanDelim, hcq, hoc, hd1]]
    rw [ihr hgr rest (i + 1 + (renderChunk op cl inner).length + 1) depth hd]
    rw [show i + 1 + (renderChunk op cl inner).length + 1 + (renderChunk op cl r).length
        = i + (op :: (renderChunk op cl inner ++ (cl :: renderChunk op cl r))).length from by
      simp [List.length_append]
      omega]

/-- C2: modelled from the spec, the Boundary Scanner contract holds - for any
prefix, any well-formed nested-delimiter content (string literals included,
whose brace, bracket and quote characters are never counted) and any tail,
matchDelimiter at the opening delimiter returns exactly the index of its
matching closing delimiter; and on the same content with the closing
delimiter removed it fails with the unbalanced-delimiter error (none),
exactly when no matching close exists before end of text. -/
theorem C2_boundary_scanner (op cl : Char)
    (hk : (op = '\x7b' ∧ cl = '\x7d') ∨ (op = '[' ∧ cl = ']'))
    (pre : Doc) (ch : Chunk) (hg : goodChunk op cl ch = true) (rest : Doc) :
    matchDelimiter (pre ++ op :: (renderChunk op cl ch ++ (cl :: rest))) pre.length
        = some (pre.length + 1 + (renderChunk op cl ch).length)
      ∧ matchDelimiter (pre ++ op :: renderChunk op cl ch) pre.length = none := by
  obtain ⟨ho, hc⟩ | ⟨ho, hc⟩ := hk <;> subst ho <;> subst hc
  all_goals constructor
  · unfold matchDelimiter
    rw [List.drop_left]
    dsimp only
    rw [show closeForDelim '\x7b' = some '\x7d' from by decide]
    dsimp only
    rw [scan_through _ _ (by decide) (by decide) (by decide) ch hg _ _ 1 (by omega)]
    simp [scanDelim]
  · unfold matchDelimiter
    rw [List.drop_left]
    dsimp only
    rw [show closeForDelim '\x7b' = some '\x7d' from by decide]
    dsimp only
    rw [← List.append_nil (renderChunk _ _ ch)]
    rw [scan_through _ _ (by decide) (by decide) (by decide) ch hg [] _ 1 (by omega)]
    rfl
  · unfold matchDelimiter
    rw [List.drop_left]
    dsimp only
    rw [show closeForDelim '[' = some ']' from by decide]
    dsimp only
    rw [scan_through _ _ (by decide) (by decide) (by decide) ch hg _ _ 1 (by omega)]
    simp [scanDelim]
  · unfold matchDelimiter
    rw [List.drop_left]
    dsimp only
    rw [show closeForDelim '[' = some ']' from by decide]
    dsimp only
    rw [← List.append_nil (renderChunk _ _ ch)]
    rw [scan_through _ _ (by decide) (by decide) (by decide) ch hg [] _ 1 (by omega)]
    rfl

/-- Witness for C2 at a concrete text whose string literal contains a closing
brace. -/
theorem C2_boundary_scanner_witness :
    matchDelimiter ((("z").toList) ++ '\x7b' :: (renderChunk '\x7b' '\x7d' c2WitChunk
        ++ ('\x7d' :: (("tail").toList)))) (("z").toList).length
        = some ((("z").toList).length + 1 + (renderChunk '\x7b' '\x7d' c2WitChunk).length)
      ∧ matchDelimiter ((("z").toList) ++ '\x7b' :: renderChunk '\x7b' '\x7d' c2WitChunk)
        (("z").toList).length = none :=
  C2_boundary_scanner '\x7b' '\x7d' (Or.inl ⟨rfl, rfl⟩) (("z").toList) c2WitChunk
    (by decide) (("tail").toList)

/-- Witness for C7 at a concrete pipeline selection and document. -/
theorem C7_amended_witness :
    (processFile none (("hello").toList)).2 = true
      ↔ (processFile none (("hello").toList)).1 ≠ ("hello").toList :=
  C7_amended none (("hello").toList)
